import Mathlib

/-!
Verification of the hyperglass query-result component
(`src/ui/components/Result.js`).

The file shallowly embeds the component's logic:

* `cleanOutput` — the output normalization
  `data.output.split("\\n").join("\n").replace(/\n\n/g, "")`;
* `formattedError` — the `FormattedError` sub-component, i.e.
  `react-string-replace` applied with the case-insensitive alternation
  regex `(kw1|kw2|...)` built from the keyword list (for the empty list the
  pattern is `()`, which matches the empty string at every position);
* the error-derivation expressions `errorKw`, `errorMsg` and the alert
  `status={error.response?.data?.alert || "error"}`, with JavaScript string
  truthiness (the empty string is falsy) made explicit;
* `render` — the props handed to each sub-element of the returned JSX tree
  (`AccordionItem`, `ResultHeader`, `CopyButton`, `RequeryButton`, the
  success `Box` and the error `Alert`);
* `mountHook`/`refetch` — the single-request-per-mount/retry behaviour of
  the `useAxios` hook together with the request configuration built from
  the component's props.

Strings are processed as their character lists; recursions that consume a
matched pattern (more than one character a step) take a fuel argument that
is always instantiated with more fuel than there are characters, so every
function computes and the theorems carry the fuel bound only as an internal
lemma hypothesis.  Regular-expression matching is modelled for the way the
component builds its patterns: an alternation of literal keywords tried in
order, compared case-insensitively by ASCII case folding (the `gi` flags).
-/

namespace HyperglassResult

/-! ### Output normalization

`Result.js` lines 64–69:

```js
const cleanOutput =
    data &&
    data.output
        .split("\\n")
        .join("\n")
        .replace(/\n\n/g, "");
```
-/

/-- `String.prototype.split` with a (non-empty) literal separator:
left-to-right, non-overlapping.  `acc` holds the characters of the current
piece in reverse. -/
def splitOnSep (sep : List Char) : Nat → List Char → List Char → List (List Char)
  | 0, acc, s => [acc.reverse ++ s]
  | _ + 1, acc, [] => [acc.reverse]
  | fuel + 1, acc, c :: rest =>
    if sep.isPrefixOf (c :: rest) then
      acc.reverse :: splitOnSep sep fuel [] ((c :: rest).drop sep.length)
    else
      splitOnSep sep fuel (c :: acc) rest

/-- `Array.prototype.join("\n")`. -/
def intercalateNL : List (List Char) → List Char
  | [] => []
  | [x] => x
  | x :: y :: rest => x ++ '\n' :: intercalateNL (y :: rest)

/-- `String.prototype.replace(pat, "")` for a global literal pattern:
each occurrence is deleted and scanning resumes after it. -/
def deleteAllL (pat : List Char) : Nat → List Char → List Char
  | 0, s => s
  | _ + 1, [] => []
  | fuel + 1, c :: rest =>
    if pat.isPrefixOf (c :: rest) then
      deleteAllL pat fuel ((c :: rest).drop pat.length)
    else
      c :: deleteAllL pat fuel rest

/-- `data.output.split("\\n").join("\n").replace(/\n\n/g, "")` — the
normalization the component applies to the response output. -/
def cleanOutput (output : String) : String :=
  let pieces := splitOnSep ['\\', 'n'] (output.data.length + 1) [] output.data
  let joined := intercalateNL pieces
  String.mk (deleteAllL ['\n', '\n'] (joined.length + 1) joined)

/-- C1: the claimed result of normalizing `"a\nb\n\nc"` (literal
backslash-n sequences) is `"a\nb\nc"`; the code instead deletes each
real-newline pair outright (`.replace(/\n\n/g, "")` replaces it with the
empty string, not with one newline), so the claimed equality fails. -/
theorem c1_counterexample : cleanOutput "a\\nb\\n\\nc" ≠ "a\nb\nc" := by decide

/-- C1 (amended): normalizing `"a\nb\n\nc"` (literal backslash-n
sequences) un-escapes to `"a", "b", "", "c"` joined by real newlines and
then deletes the double newline entirely, yielding `"a\nbc"`: the single
break between `a` and `b` is preserved, while `b` and `c` are joined with
no separator at all. -/
theorem c1_amended : cleanOutput "a\\nb\\n\\nc" = "a\nbc" := by decide

/-! ### Error formatting (`FormattedError`)

`Result.js` lines 23–32:

```js
const FormattedError = ({ keywords, message }) => {
    const patternStr = `(${keywords.join("|")})`;
    const pattern = new RegExp(patternStr, "gi");
    const errorFmt = strReplace(message, pattern, match => (
        <Text key={match} as="strong">{match}</Text>
    ));
    return <Text>{errorFmt}</Text>;
};
```

`react-string-replace` computes `message.split(pattern)` (the pattern is one
capturing group, so the split array alternates between the pieces around the
matches and the matched text itself) and replaces every odd-indexed element —
each match — with the emphasized `<Text as="strong">` element.  The pieces
at even indices stay plain text.  The split below follows the ECMAScript
`String.prototype.split` algorithm, including its treatment of empty
matches (an empty match immediately after a previous split point is
skipped); the pattern is the ordered alternation of the keywords taken as
literals (`keywords.join("|")`), compared case-insensitively by ASCII case
folding, and for an empty keyword list the pattern `()` is the single empty
alternative. -/

/-- One rendered fragment of `FormattedError`: plain text, or a match
wrapped in `<Text as="strong">`. -/
inductive Fragment where
  | plain (text : String)
  | strongText (text : String)
deriving DecidableEq

/-- ASCII case folding on code points.  For an ASCII pattern character this
is exactly the canonicalization the `i` regex flag (without `u`) performs:
ECMAScript `Canonicalize` upper-cases the candidate character but returns it
unchanged when a non-ASCII character would canonicalize to an ASCII one, so
an ASCII pattern character matches precisely the ASCII-case-insensitive
candidates and never a non-ASCII one (é/É, ſ, the Kelvin sign all stay
non-ASCII).  The pattern parser below only accepts ASCII patterns, keeping
this folding exact against arbitrary message text. -/
def lowerNat (n : Nat) : Nat := if 65 ≤ n ∧ n ≤ 90 then n + 32 else n

/-- Case-insensitive character comparison (see `lowerNat`). -/
def lowerEq (a b : Char) : Bool := lowerNat a.toNat == lowerNat b.toNat

/-- Case-insensitive equality of character lists. -/
def ciEqB : List Char → List Char → Bool
  | [], [] => true
  | a :: as, b :: bs => lowerEq a b && ciEqB as bs
  | _ :: _, [] => false
  | [], _ :: _ => false

/-- Does `a` match case-insensitively at the start of `s`? -/
def ciStartsWithB : List Char → List Char → Bool
  | [], _ => true
  | _ :: _, [] => false
  | a :: as, b :: bs => lowerEq a b && ciStartsWithB as bs

/-- The alternatives of the pattern `` `(${keywords.join("|")})` `` read as
*literal* alternatives: the keywords in order, and for the empty list the
single empty alternative of the pattern `()`.  The keywords are
interpolated into the regex source unescaped, so this literal reading is
the pattern's meaning exactly when no keyword contains a regex syntax
character; the general pattern is handled by the regex machinery below,
and `formattedError_literal` proves the two agree on such keywords. -/
def alternatives : List String → List (List Char)
  | [] => [[]]
  | ks => ks.map String.data

/-- The literal-alternation match attempt at the start of `s`: the first
alternative (in alternation order) that matches yields the matched text —
the original-case characters of `s`, as a regex match does. -/
def findMatch (alts : List (List Char)) (s : List Char) : Option (List Char) :=
  match alts.find? (fun a => ciStartsWithB a s) with
  | some a => some (s.take a.length)
  | none => none

/-- `message.split(pattern)` with every odd element (each match) replaced
by the emphasized fragment — the ECMAScript split algorithm: `acc` holds
the current piece in reverse; an empty match while the current piece is
empty is skipped; a match flushes the piece, emits the emphasized match and
resumes after it. -/
def jsSplitF (alts : List (List Char)) : Nat → List Char → List Char → List Fragment
  | 0, acc, rem => [Fragment.plain (String.mk (acc.reverse ++ rem))]
  | _ + 1, acc, [] => [Fragment.plain (String.mk acc.reverse)]
  | fuel + 1, acc, c :: rest =>
    match findMatch alts (c :: rest) with
    | none => jsSplitF alts fuel (c :: acc) rest
    | some [] =>
      if acc.isEmpty then
        jsSplitF alts fuel [c] rest
      else
        Fragment.plain (String.mk acc.reverse) :: Fragment.strongText "" ::
          jsSplitF alts fuel [c] rest
    | some (m :: ms) =>
      Fragment.plain (String.mk acc.reverse) :: Fragment.strongText (String.mk (m :: ms)) ::
        jsSplitF alts fuel [] ((c :: rest).drop (m :: ms).length)

/-- The fragments `FormattedError` renders when the pattern is read as a
literal alternation — the behaviour of the component for keyword lists
free of regex syntax characters (see `formattedError_literal`). -/
def litFragments (keywords : List String) (message : String) : List Fragment :=
  jsSplitF (alternatives keywords) (message.data.length + 1) [] message.data

/-- The text content of a fragment. -/
def fragText : Fragment → String
  | .plain t => t
  | .strongText t => t

/-- The characters of a fragment list, in rendering order. -/
def fragChars : List Fragment → List Char
  | [] => []
  | f :: fs => (fragText f).data ++ fragChars fs

/-- The concatenated text content of the rendered fragments. -/
def fragmentsText (l : List Fragment) : String := String.mk (fragChars l)

/-- Is every emphasized fragment (case-insensitively) one of the keywords? -/
def matchedOkB (keywords : List String) : Fragment → Bool
  | .plain _ => true
  | .strongText t => keywords.any fun k => ciEqB k.data t.data

/-- `matchedOkB` at the level of pattern alternatives. -/
def fragOkAlts (alts : List (List Char)) : Fragment → Bool
  | .plain _ => true
  | .strongText t => alts.any fun a => ciEqB a t.data

/-! ### Lemmas about the split -/

theorem take_len_append_drop (n : Nat) (s : List Char) :
    s.take n ++ s.drop (s.take n).length = s := by
  induction s generalizing n with
  | nil => simp
  | cons c cs ih =>
    cases n with
    | zero => simp
    | succ m => simpa using ih m

theorem ciStartsWithB_take (a : List Char) :
    ∀ s, ciStartsWithB a s = true → ciEqB a (s.take a.length) = true := by
  induction a with
  | nil => intro s _; rfl
  | cons x xs ih =>
    intro s hs
    cases s with
    | nil => simp [ciStartsWithB] at hs
    | cons y ys =>
      rw [ciStartsWithB, Bool.and_eq_true] at hs
      rw [List.length_cons, List.take_succ_cons, ciEqB, Bool.and_eq_true]
      exact ⟨hs.1, ih ys hs.2⟩

theorem findMatch_spec {alts : List (List Char)} {s m : List Char}
    (h : findMatch alts s = some m) :
    ∃ a, a ∈ alts ∧ ciStartsWithB a s = true ∧ m = s.take a.length := by
  unfold findMatch at h
  cases hf : alts.find? (fun a => ciStartsWithB a s) with
  | none => rw [hf] at h; exact absurd h (by simp)
  | some a =>
    rw [hf] at h
    have hp : ciStartsWithB a s = true := by simpa using List.find?_some hf
    exact ⟨a, List.mem_of_find?_eq_some hf, hp, (Option.some.inj h).symm⟩

theorem findMatch_append {alts : List (List Char)} {s m : List Char}
    (h : findMatch alts s = some m) : m ++ s.drop m.length = s := by
  obtain ⟨a, -, -, rfl⟩ := findMatch_spec h
  exact take_len_append_drop a.length s

theorem data_mk (l : List Char) : (String.mk l).data = l := rfl

theorem data_empty : ("" : String).data = [] := rfl

/-- `jsSplitF` preserves the text: with enough fuel, the concatenated
characters of the fragments are the pending piece followed by the
remainder. -/
theorem jsSplitF_chars (alts : List (List Char)) :
    ∀ (fuel : Nat) (acc rem : List Char), rem.length < fuel →
      fragChars (jsSplitF alts fuel acc rem) = acc.reverse ++ rem := by
  intro fuel
  induction fuel with
  | zero => intro acc rem h; exact absurd h (Nat.not_lt_zero _)
  | succ fuel ih =>
    intro acc rem h
    cases rem with
    | nil => simp [jsSplitF, fragChars, fragText, data_mk]
    | cons c rest =>
      have hr : rest.length < fuel := by
        rw [List.length_cons] at h
        omega
      cases hm : findMatch alts (c :: rest) with
      | none =>
        simp only [jsSplitF, hm]
        rw [ih (c :: acc) rest hr]
        simp
      | some m =>
        cases m with
        | nil =>
          simp only [jsSplitF, hm]
          cases acc with
          | nil =>
            simp only [List.isEmpty_nil, if_true]
            rw [ih [c] rest hr]
            simp
          | cons a0 as =>
            simp only [List.isEmpty_cons, Bool.false_eq_true, if_false]
            simp only [fragChars, fragText, data_mk, data_empty]
            rw [ih [c] rest hr]
            simp
        | cons m0 ms =>
          have hlen : ((c :: rest).drop (m0 :: ms).length).length < fuel := by
            rw [List.length_drop, List.length_cons, List.length_cons]
            omega
          have hap := findMatch_append hm
          simp only [jsSplitF, hm]
          simp only [fragChars, fragText, data_mk]
          rw [ih [] ((c :: rest).drop (m0 :: ms).length) hlen]
          rw [List.reverse_nil, List.nil_append, hap]

/-- Every emphasized fragment the split emits is (case-insensitively) one of
the pattern's alternatives — with any fuel and any pending piece. -/
theorem jsSplitF_matched_ok (alts : List (List Char)) :
    ∀ (fuel : Nat) (acc rem : List Char),
      (jsSplitF alts fuel acc rem).all (fragOkAlts alts) = true := by
  intro fuel
  induction fuel with
  | zero => intro acc rem; simp [jsSplitF, fragOkAlts]
  | succ fuel ih =>
    intro acc rem
    cases rem with
    | nil => simp [jsSplitF, fragOkAlts]
    | cons c rest =>
      cases hm : findMatch alts (c :: rest) with
      | none =>
        simp only [jsSplitF, hm]
        exact ih (c :: acc) rest
      | some m =>
        cases m with
        | nil =>
          obtain ⟨a, hmem, hstarts, htake⟩ := findMatch_spec hm
          have ha : a = [] := by
            cases a with
            | nil => rfl
            | cons x xs => rw [List.length_cons, List.take_succ_cons] at htake; cases htake
          have hok : fragOkAlts alts (Fragment.strongText "") = true := by
            simp only [fragOkAlts, List.any_eq_true]
            exact ⟨a, hmem, by rw [ha]; rfl⟩
          simp only [jsSplitF, hm]
          cases acc with
          | nil =>
            simp only [List.isEmpty_nil, if_true]
            exact ih [c] rest
          | cons a0 as =>
            simp only [List.isEmpty_cons, Bool.false_eq_true, if_false]
            rw [List.all_cons, List.all_cons, ih [c] rest, hok]
            simp [fragOkAlts]
        | cons m0 ms =>
          obtain ⟨a, hmem, hstarts, htake⟩ := findMatch_spec hm
          have hok : fragOkAlts alts (Fragment.strongText (String.mk (m0 :: ms))) = true := by
            simp only [fragOkAlts, List.any_eq_true]
            refine ⟨a, hmem, ?_⟩
            rw [htake]
            exact ciStartsWithB_take a (c :: rest) hstarts
          simp only [jsSplitF, hm]
          rw [List.all_cons, List.all_cons, ih [] ((c :: rest).drop (m0 :: ms).length), hok]
          simp [fragOkAlts]

theorem any_data_map (t : String) : ∀ (ks : List String),
    (ks.any fun k => ciEqB k.data t.data)
      = ((ks.map String.data).any fun a => ciEqB a t.data) := by
  intro ks
  induction ks with
  | nil => rfl
  | cons k ks ih => simp only [List.any_cons, List.map_cons, ih]

/-- Under the literal reading of the pattern, every emphasized fragment is
(case-insensitively) one of the keywords, for a non-empty keyword list. -/
theorem litFragments_matched_ok (keywords : List String) (message : String)
    (hk : keywords ≠ []) :
    (litFragments keywords message).all (matchedOkB keywords) = true := by
  have halts : alternatives keywords = keywords.map String.data := by
    cases keywords with
    | nil => exact absurd rfl hk
    | cons k ks => rfl
  have hfun : matchedOkB keywords = fragOkAlts (keywords.map String.data) := by
    funext f
    cases f with
    | plain t => rfl
    | strongText t =>
      simp only [matchedOkB, fragOkAlts]
      exact any_data_map t keywords
  unfold litFragments
  rw [halts, hfun]
  exact jsSplitF_matched_ok (keywords.map String.data) (message.data.length + 1) [] message.data

/-- Under the literal reading of the pattern, the fragments concatenate
back to the message, for every keyword list. -/
theorem litFragments_text (keywords : List String) (message : String) :
    fragmentsText (litFragments keywords message) = message := by
  unfold fragmentsText litFragments
  rw [jsSplitF_chars (alternatives keywords) (message.data.length + 1) [] message.data
      (Nat.lt_succ_self _)]
  cases message with
  | mk d => rfl

/-! ### The compiled regex

`FormattedError` compiles `new RegExp(`(${keywords.join("|")})`, "gi")` with
the keywords interpolated into the regex source *unescaped*, so a keyword
may contribute regex syntax: `.` matches (almost) any character, `(`/`)`
add capture groups whose values `String.prototype.split` also interleaves
into its result, and so on.  The machinery below embeds the compiled
pattern for the fragment of regex syntax these claims exercise — literal
characters, `.`, alternation `|` and groups `( )` — with the `i` flag as
ASCII folding, which is exact for the ASCII-only patterns the parser
accepts (see `lowerNat`).  `parsePattern` returns `none` outside this
modelled fragment (escapes, quantifiers, classes, anchors, non-ASCII
pattern characters, and syntax errors such as an unbalanced `[`, on which
the real `new RegExp` throws); no theorem concerns those inputs. -/

/-- The ECMAScript pattern `SyntaxCharacter`s (plus `|`): a keyword built
only of other ASCII characters reads as a literal. -/
def regexSyntaxChars : List Char :=
  ['^', '$', '\\', '.', '*', '+', '?', '(', ')', '[', ']', '{', '}', '|']

/-- A character the regex engine treats as a literal: ASCII and not a
syntax character. -/
def regexLiteralChar (c : Char) : Bool :=
  decide (c.toNat < 128) && !(regexSyntaxChars.contains c)

/-- A keyword that is interpolated into the pattern verbatim as a literal. -/
def regexLiteralStr (s : String) : Bool := s.data.all regexLiteralChar

/-- The supported regex fragment: literals, `.`, concatenation, ordered
alternation and numbered capture groups. -/
inductive Re where
  | eps
  | lit (c : Char)
  | anyChar
  | seq (a b : Re)
  | alt (a b : Re)
  | group (idx : Nat) (r : Re)
deriving DecidableEq

/-- The line terminators `.` does not match (ECMAScript `Dot`). -/
def isLineTerm (c : Char) : Bool :=
  c == '\n' || c == '\r' || c.toNat == 8232 || c.toNat == 8233

/-- The value of capture group `i` in a capture record. -/
def lookupCap (i : Nat) : List (Nat × List Char) → Option (List Char)
  | [] => none
  | (j, v) :: rest => if j = i then some v else lookupCap i rest

/-- The backtracking matcher, anchored at the start of `s`: all ways the
expression can match a prefix of `s`, each as (remaining suffix, captures),
in ECMAScript priority order (alternatives in order, with full
backtracking — the list-of-successes order).  A group records the
characters it consumed under its number. -/
def matchRe : Re → List Char → List (Nat × List Char) →
    List (List Char × List (Nat × List Char))
  | .eps, s, caps => [(s, caps)]
  | .lit c, s, caps =>
    match s with
    | [] => []
    | x :: xs => if lowerEq c x then [(xs, caps)] else []
  | .anyChar, s, caps =>
    match s with
    | [] => []
    | x :: xs => if isLineTerm x then [] else [(xs, caps)]
  | .seq a b, s, caps => (matchRe a s caps).flatMap fun p => matchRe b p.1 p.2
  | .alt a b, s, caps => matchRe a s caps ++ matchRe b s caps
  | .group i r, s, caps =>
    (matchRe r s caps).map fun p => (p.1, (i, s.take (s.length - p.1.length)) :: p.2)

/-- The match attempt at a position: the first (highest-priority) way the
pattern matches there, as the ECMAScript matcher returns it. -/
def matchAt (r : Re) (s : List Char) : Option (List Char × List (Nat × List Char)) :=
  (matchRe r s []).head?

/-- A keyword's characters as a regex concatenation of literals. -/
def litSeq : List Char → Re
  | [] => .eps
  | c :: cs => .seq (.lit c) (litSeq cs)

/-- A keyword list as an ordered regex alternation of literals (the empty
list is the empty pattern, matching the empty string). -/
def litAlts : List (List Char) → Re
  | [] => .eps
  | [k] => litSeq k
  | k :: k2 :: rest => .alt (litSeq k) (litAlts (k2 :: rest))

/-- `keywords.join("|")`, as characters. -/
def joinBar : List (List Char) → List Char
  | [] => []
  | [k] => k
  | k :: k2 :: rest => k ++ '|' :: joinBar (k2 :: rest)

/-- The source of the constructed pattern `` `(${keywords.join("|")})` ``. -/
def patternChars (keywords : List String) : List Char :=
  '(' :: (joinBar (keywords.map String.data) ++ [')'])

mutual

/-- Parse a regex `Alternative` (a concatenation of terms), stopping at
`|`, `)` or the end; threads the next capture-group number.  `none` on
syntax outside the modelled fragment. -/
def parseSeq (idx : Nat) : Nat → List Char → Option (Re × List Char × Nat)
  | 0, _ => none
  | fuel + 1, s =>
    match s with
    | [] => some (.eps, [], idx)
    | c :: rest =>
      if c = '|' then some (.eps, c :: rest, idx)
      else if c = ')' then some (.eps, c :: rest, idx)
      else if c = '(' then
        match parseAlts (idx + 1) fuel rest with
        | some (inner, rest2, idx2) =>
          match rest2 with
          | [] => none
          | c2 :: rest3 =>
            if c2 = ')' then
              match parseSeq idx2 fuel rest3 with
              | some (tail, rest4, idx3) => some (.seq (.group idx inner) tail, rest4, idx3)
              | none => none
            else none
        | none => none
      else if c = '.' then
        match parseSeq idx fuel rest with
        | some (tail, rest2, idx2) => some (.seq .anyChar tail, rest2, idx2)
        | none => none
      else if regexLiteralChar c then
        match parseSeq idx fuel rest with
        | some (tail, rest2, idx2) => some (.seq (.lit c) tail, rest2, idx2)
        | none => none
      else none

/-- Parse a regex `Disjunction`: alternatives separated by `|`. -/
def parseAlts (idx : Nat) : Nat → List Char → Option (Re × List Char × Nat)
  | 0, _ => none
  | fuel + 1, s =>
    match parseSeq idx fuel s with
    | some (r, rest, idx2) =>
      match rest with
      | [] => some (r, [], idx2)
      | c2 :: rest2 =>
        if c2 = '|' then
          match parseAlts idx2 fuel rest2 with
          | some (r2, rest3, idx3) => some (.alt r r2, rest3, idx3)
          | none => none
        else some (r, c2 :: rest2, idx2)
    | none => none

end

/-- The compiled pattern of `new RegExp(`(${keywords.join("|")})`, "gi")`
together with one past its last capture-group number; `none` outside the
modelled fragment. -/
def parsePattern (keywords : List String) : Option (Re × Nat) :=
  match parseAlts 1 (2 * (patternChars keywords).length + 8) (patternChars keywords) with
  | some (r, [], idx) => some (r, idx)
  | _ => none

/-- The capture values of groups `1..n`, in order, as
`String.prototype.split` appends them after each separator match
(`undefined` — `none` — for a group that did not participate). -/
def capsRow (n : Nat) (caps : List (Nat × List Char)) : List (Option (List Char)) :=
  (List.range n).map fun i => lookupCap (i + 1) caps

/-- `message.split(pattern)` for a pattern with `n` capture groups: the
ECMAScript split algorithm — pieces between matches interleaved with every
match's capture values; an empty match immediately after the previous
split point is skipped; scanning resumes after each match. -/
def splitArrF (r : Re) (n : Nat) : Nat → List Char → List Char →
    List (Option (List Char))
  | 0, acc, rem => [some (acc.reverse ++ rem)]
  | _ + 1, acc, [] => [some acc.reverse]
  | fuel + 1, acc, c :: rest =>
    match matchAt r (c :: rest) with
    | none => splitArrF r n fuel (c :: acc) rest
    | some (rem2, caps) =>
      if (c :: rest).length - rem2.length = 0 then
        if acc.isEmpty then splitArrF r n fuel [c] rest
        else some acc.reverse :: (capsRow n caps ++ splitArrF r n fuel [c] rest)
      else some acc.reverse :: (capsRow n caps ++ splitArrF r n fuel [] rem2)

/-- `react-string-replace` on the split array: every odd-indexed element
(each capture value) becomes the emphasized `<Text as="strong">` fragment;
even-indexed elements stay plain.  An `undefined` capture renders as no
text. -/
def arrFrags : Bool → List (Option (List Char)) → List Fragment
  | _, [] => []
  | false, x :: xs => Fragment.plain (String.mk (x.getD [])) :: arrFrags true xs
  | true, x :: xs => Fragment.strongText (String.mk (x.getD [])) :: arrFrags false xs

/-- The fragments `FormattedError` renders: compile the constructed
pattern, split the message on it (interleaving all capture values) and
emphasize the odd-indexed elements.  `none` when the pattern falls outside
the modelled regex fragment. -/
def formattedError (keywords : List String) (message : String) :
    Option (List Fragment) :=
  match parsePattern keywords with
  | none => none
  | some (r, nextIdx) =>
    some (arrFrags false
      (splitArrF r (nextIdx - 1) (message.data.length + 1) [] message.data))

/-! ### The regex pipeline on literal keywords

For keyword lists free of regex syntax characters the compiled pattern is
the literal alternation, and the whole pipeline agrees with
`litFragments` (`formattedError_literal`). -/

theorem drop_take_len (n : Nat) (s : List Char) :
    s.drop (s.take n).length = s.drop n := by
  induction s generalizing n with
  | nil => simp
  | cons c cs ih =>
    cases n with
    | zero => simp
    | succ m => simpa using ih m

theorem ciStartsWithB_le (a : List Char) :
    ∀ s, ciStartsWithB a s = true → a.length ≤ s.length := by
  induction a with
  | nil => intro s _; simp
  | cons x xs ih =>
    intro s hs
    cases s with
    | nil => simp [ciStartsWithB] at hs
    | cons y ys =>
      rw [ciStartsWithB, Bool.and_eq_true] at hs
      have := ih ys hs.2
      simp only [List.length_cons]
      omega

theorem findMatch_length_le {alts : List (List Char)} {s m : List Char}
    (h : findMatch alts s = some m) : m.length ≤ s.length := by
  obtain ⟨a, -, -, rfl⟩ := findMatch_spec h
  simp [List.length_take]

theorem matchRe_litSeq (k : List Char) :
    ∀ (s : List Char) (caps : List (Nat × List Char)),
      matchRe (litSeq k) s caps
        = if ciStartsWithB k s then [(s.drop k.length, caps)] else [] := by
  induction k with
  | nil => intro s caps; simp [litSeq, matchRe, ciStartsWithB]
  | cons c cs ih =>
    intro s caps
    cases s with
    | nil => simp [litSeq, matchRe, ciStartsWithB]
    | cons x xs =>
      by_cases hl : lowerEq c x
      · simp only [litSeq, matchRe, hl, if_true, List.flatMap_cons, List.flatMap_nil,
          List.append_nil, ih xs caps, ciStartsWithB, Bool.true_and, List.length_cons,
          List.drop_succ_cons]
      · simp [litSeq, matchRe, hl, ciStartsWithB]

theorem head?_matchRe_litAlts (k : List Char) :
    ∀ (rest : List (List Char)) (s : List Char),
      (matchRe (litAlts (k :: rest)) s []).head?
        = ((k :: rest).find? (fun a => ciStartsWithB a s)).map
            (fun a => (s.drop a.length, ([] : List (Nat × List Char)))) := by
  intro rest
  induction rest generalizing k with
  | nil =>
    intro s
    rw [show litAlts [k] = litSeq k from rfl, matchRe_litSeq]
    by_cases h : ciStartsWithB k s <;> simp [List.find?, h]
  | cons k2 rest ih =>
    intro s
    rw [show litAlts (k :: k2 :: rest) = Re.alt (litSeq k) (litAlts (k2 :: rest)) from rfl]
    rw [show matchRe (Re.alt (litSeq k) (litAlts (k2 :: rest))) s []
        = matchRe (litSeq k) s [] ++ matchRe (litAlts (k2 :: rest)) s [] from rfl]
    rw [matchRe_litSeq]
    by_cases h : ciStartsWithB k s
    · simp [List.find?, h]
    · simp [List.find?, h, ih k2]

theorem matchAt_lit (alts : List (List Char)) (halts : alts ≠ []) (s : List Char) :
    matchAt (Re.seq (Re.group 1 (litAlts alts)) Re.eps) s
      = match findMatch alts s with
        | some m => some (s.drop m.length, [(1, m)])
        | none => none := by
  obtain ⟨k, rest, rfl⟩ : ∃ k rest, alts = k :: rest := by
    cases alts with
    | nil => exact absurd rfl halts
    | cons k rest => exact ⟨k, rest, rfl⟩
  unfold matchAt
  rw [show matchRe (Re.seq (Re.group 1 (litAlts (k :: rest))) Re.eps) s []
      = ((matchRe (litAlts (k :: rest)) s []).map
          (fun p => (p.1, (1, s.take (s.length - p.1.length)) :: p.2))).flatMap
          (fun p => matchRe Re.eps p.1 p.2) by simp only [matchRe]]
  simp only [matchRe, List.flatMap_singleton', List.head?_map,
    head?_matchRe_litAlts k rest s, Option.map_map]
  cases hf : (k :: rest).find? (fun a => ciStartsWithB a s) with
  | none =>
    have hm : findMatch (k :: rest) s = none := by
      unfold findMatch
      rw [hf]
    rw [hm]
    rfl
  | some a =>
    have hp : ciStartsWithB a s = true := by simpa using List.find?_some hf
    have hle : a.length ≤ s.length := ciStartsWithB_le a s hp
    have hm : findMatch (k :: rest) s = some (s.take a.length) := by
      unfold findMatch
      rw [hf]
    rw [hm]
    have h2 : s.length - (s.drop a.length).length = a.length := by
      rw [List.length_drop]
      omega
    simp only [Option.map_some', Function.comp_apply, h2, drop_take_len]

theorem regexLiteralChar_spec {c : Char} (h : regexLiteralChar c = true) :
    ¬c = '|' ∧ ¬c = ')' ∧ ¬c = '(' ∧ ¬c = '.' := by
  rw [regexLiteralChar, Bool.and_eq_true] at h
  have h2 := h.2
  refine ⟨?_, ?_, ?_, ?_⟩ <;> intro hc <;> rw [hc] at h2 <;>
    exact absurd h2 (by decide)

theorem parseSeq_lit (k : List Char) :
    ∀ (tail : List Char) (idx fuel : Nat),
      k.all regexLiteralChar = true →
      k.length < fuel →
      (tail = [] ∨ (∃ t, tail = '|' :: t) ∨ (∃ t, tail = ')' :: t)) →
      parseSeq idx fuel (k ++ tail) = some (litSeq k, tail, idx) := by
  induction k with
  | nil =>
    intro tail idx fuel _ hfuel htail
    cases fuel with
    | zero => omega
    | succ f =>
      rcases htail with rfl | ⟨t, rfl⟩ | ⟨t, rfl⟩ <;> simp [parseSeq, litSeq]
  | cons c cs ih =>
    intro tail idx fuel hall hfuel htail
    rw [List.all_cons, Bool.and_eq_true] at hall
    obtain ⟨hne1, hne2, hne3, hne4⟩ := regexLiteralChar_spec hall.1
    cases fuel with
    | zero => exact absurd hfuel (by omega)
    | succ f =>
      have hrec := ih tail idx f hall.2
        (by rw [List.length_cons] at hfuel; omega) htail
      rw [List.cons_append]
      show parseSeq idx (f + 1) (c :: (cs ++ tail)) = _
      rw [parseSeq, if_neg hne1, if_neg hne2, if_neg hne3, if_neg hne4,
        if_pos hall.1, hrec]
      rfl

theorem joinBar_cons_cons (k k2 : List Char) (rest : List (List Char)) :
    joinBar (k :: k2 :: rest) = k ++ '|' :: joinBar (k2 :: rest) := rfl

theorem length_le_joinBar (ks : List (List Char)) :
    ks.length ≤ (joinBar ks).length + 1 := by
  induction ks with
  | nil => simp [joinBar]
  | cons k ks ih =>
    cases ks with
    | nil => simp [joinBar]
    | cons k2 rest =>
      have h1 : (joinBar (k :: k2 :: rest)).length
          = k.length + ((joinBar (k2 :: rest)).length + 1) := by
        rw [joinBar_cons_cons, List.length_append, List.length_cons]
      have h2 : ((k2 :: rest) : List (List Char)).length = rest.length + 1 := by simp
      have h3 : ((k :: k2 :: rest) : List (List Char)).length = rest.length + 2 := by simp
      rw [h1, h3]
      rw [h2] at ih
      omega

theorem parseAlts_lit (ks : List (List Char)) :
    ∀ (tail : List Char) (idx fuel : Nat),
      (∀ k ∈ ks, k.all regexLiteralChar = true) →
      (joinBar ks).length + ks.length + 2 ≤ fuel →
      (tail = [] ∨ ∃ t, tail = ')' :: t) →
      parseAlts idx fuel (joinBar ks ++ tail) = some (litAlts ks, tail, idx) := by
  induction ks with
  | nil =>
    intro tail idx fuel _ hfuel htail
    rw [show (joinBar ([] : List (List Char))).length = 0 from rfl,
      List.length_nil] at hfuel
    cases fuel with
    | zero => omega
    | succ f =>
      have hseq := parseSeq_lit [] tail idx f rfl
        (by rw [List.length_nil]; omega)
        (by rcases htail with rfl | ⟨t, rfl⟩
            · exact Or.inl rfl
            · exact Or.inr (Or.inr ⟨t, rfl⟩))
      rw [show joinBar [] ++ tail = [] ++ tail from rfl, parseAlts, hseq]
      rcases htail with rfl | ⟨t, rfl⟩ <;> simp [litAlts, litSeq]
  | cons k ks ih =>
    intro tail idx fuel hall hfuel htail
    cases ks with
    | nil =>
      rw [show (joinBar [k]).length = k.length from rfl,
        show ([k] : List (List Char)).length = 1 from rfl] at hfuel
      cases fuel with
      | zero => omega
      | succ f =>
        have hseq := parseSeq_lit k tail idx f (hall k (by simp))
          (by omega)
          (by rcases htail with rfl | ⟨t, rfl⟩
              · exact Or.inl rfl
              · exact Or.inr (Or.inr ⟨t, rfl⟩))
        rw [show joinBar [k] = k from rfl, parseAlts, hseq]
        rcases htail with rfl | ⟨t, rfl⟩ <;> simp [litAlts]
    | cons k2 rest =>
      have hjlen : (joinBar (k :: k2 :: rest)).length
          = k.length + 1 + (joinBar (k2 :: rest)).length := by
        rw [joinBar_cons_cons, List.length_append, List.length_cons]
        omega
      rw [hjlen, show ((k :: k2 :: rest) : List (List Char)).length
          = rest.length + 2 by simp] at hfuel
      cases fuel with
      | zero => omega
      | succ f =>
        have hseq := parseSeq_lit k ('|' :: (joinBar (k2 :: rest) ++ tail)) idx f
          (hall k (by simp))
          (by omega)
          (Or.inr (Or.inl ⟨joinBar (k2 :: rest) ++ tail, rfl⟩))
        have hrec := ih tail idx f (fun a ha => hall a (by simp [ha]))
          (by rw [show ((k2 :: rest) : List (List Char)).length
                = rest.length + 1 by simp]
              omega) htail
        rw [show joinBar (k :: k2 :: rest) ++ tail
            = k ++ ('|' :: (joinBar (k2 :: rest) ++ tail)) by
          rw [joinBar_cons_cons]
          simp]
        rw [parseAlts, hseq]
        simp [hrec, litAlts]

theorem parseTop (f : Nat) (ks : List (List Char))
    (hall : ∀ k ∈ ks, k.all regexLiteralChar = true)
    (hf : (joinBar ks).length + ks.length + 2 ≤ f) :
    parseAlts 1 (f + 1 + 1) ('(' :: (joinBar ks ++ [')']))
      = some (Re.seq (Re.group 1 (litAlts ks)) Re.eps, [], 2) := by
  obtain ⟨g, rfl⟩ : ∃ g, f = g + 1 := ⟨f - 1, by omega⟩
  have hinner := parseAlts_lit ks [')'] 2 (g + 1) hall hf (Or.inr ⟨[], rfl⟩)
  rw [parseAlts, parseSeq]
  rw [if_neg (by decide), if_neg (by decide), if_pos rfl, hinner]
  have hend : parseSeq 2 (g + 1) ([] : List Char) = some (Re.eps, [], 2) := by
    rw [parseSeq]
  simp [hend]

theorem parsePattern_lit (keywords : List String)
    (h : keywords.all regexLiteralStr = true) :
    parsePattern keywords
      = some (Re.seq (Re.group 1 (litAlts (keywords.map String.data))) Re.eps, 2) := by
  have hall : ∀ k ∈ keywords.map String.data, k.all regexLiteralChar = true := by
    intro k hk
    rw [List.mem_map] at hk
    obtain ⟨w, hw, rfl⟩ := hk
    rw [List.all_eq_true] at h
    exact h w hw
  unfold parsePattern
  have hlen : (patternChars keywords).length
      = (joinBar (keywords.map String.data)).length + 2 := by
    rw [patternChars, List.length_cons, List.length_append]
    rfl
  have harith : 2 * (patternChars keywords).length + 8
      = (2 * (joinBar (keywords.map String.data)).length + 10) + 1 + 1 := by
    rw [hlen]
    omega
  have hks : (keywords.map String.data).length ≤
      (joinBar (keywords.map String.data)).length + 1 :=
    length_le_joinBar (keywords.map String.data)
  rw [harith,
    show patternChars keywords
        = '(' :: (joinBar (keywords.map String.data) ++ [')']) from rfl,
    parseTop (2 * (joinBar (keywords.map String.data)).length + 10)
      (keywords.map String.data) hall (by omega)]

theorem alternatives_ne (keywords : List String) : alternatives keywords ≠ [] := by
  cases keywords with
  | nil => simp [alternatives]
  | cons k ks => simp [alternatives]

theorem litAlts_alternatives (keywords : List String) :
    litAlts (keywords.map String.data) = litAlts (alternatives keywords) := by
  cases keywords with
  | nil => rfl
  | cons k ks => rfl

/-- On a single-group literal pattern, the generic split-and-emphasize
pipeline coincides with the literal-alternation evaluation `jsSplitF`. -/
theorem arrFrags_splitArr (alts : List (List Char)) (halts : alts ≠ []) :
    ∀ (fuel : Nat) (acc rem : List Char),
      arrFrags false
        (splitArrF (Re.seq (Re.group 1 (litAlts alts)) Re.eps) 1 fuel acc rem)
        = jsSplitF alts fuel acc rem := by
  intro fuel
  induction fuel with
  | zero => intro acc rem; rfl
  | succ fuel ih =>
    intro acc rem
    cases rem with
    | nil => rfl
    | cons c rest =>
      cases hm : findMatch alts (c :: rest) with
      | none =>
        simp only [splitArrF, jsSplitF, matchAt_lit alts halts, hm]
        exact ih (c :: acc) rest
      | some m =>
        have hle : m.length ≤ (c :: rest).length := findMatch_length_le hm
        cases m with
        | nil =>
          simp only [splitArrF, jsSplitF, matchAt_lit alts halts, hm,
            List.length_nil, List.drop_zero, Nat.sub_self, if_true]
          cases acc with
          | nil =>
            simp only [List.isEmpty_nil, if_true]
            exact ih [c] rest
          | cons a0 as =>
            simp only [List.isEmpty_cons, Bool.false_eq_true, if_false]
            rw [show (some ((a0 :: as).reverse) ::
                (capsRow 1 [(1, ([] : List Char))] ++
                  splitArrF (Re.seq (Re.group 1 (litAlts alts)) Re.eps) 1 fuel [c] rest))
              = some ((a0 :: as).reverse) :: some ([] : List Char) ::
                  splitArrF (Re.seq (Re.group 1 (litAlts alts)) Re.eps) 1 fuel [c] rest
              from rfl]
            rw [show arrFrags false (some ((a0 :: as).reverse) :: some ([] : List Char) ::
                  splitArrF (Re.seq (Re.group 1 (litAlts alts)) Re.eps) 1 fuel [c] rest)
              = Fragment.plain (String.mk ((a0 :: as).reverse)) :: Fragment.strongText "" ::
                  arrFrags false
                    (splitArrF (Re.seq (Re.group 1 (litAlts alts)) Re.eps) 1 fuel [c] rest)
              from rfl]
            rw [ih [c] rest]
        | cons m0 ms =>
          have hl1 : (m0 :: ms).length = ms.length + 1 := by simp
          have hl2 : (c :: rest).length = rest.length + 1 := by simp
          have hlen2 : ((c :: rest).drop (m0 :: ms).length).length
              = (c :: rest).length - (m0 :: ms).length := List.length_drop _ _
          simp only [splitArrF, jsSplitF, matchAt_lit alts halts, hm]
          rw [hlen2, if_neg (by omega)]
          rw [show (some acc.reverse ::
              (capsRow 1 [(1, m0 :: ms)] ++
                splitArrF (Re.seq (Re.group 1 (litAlts alts)) Re.eps) 1 fuel []
                  ((c :: rest).drop (m0 :: ms).length)))
            = some acc.reverse :: some (m0 :: ms) ::
                splitArrF (Re.seq (Re.group 1 (litAlts alts)) Re.eps) 1 fuel []
                  ((c :: rest).drop (m0 :: ms).length)
            from rfl]
          rw [show arrFrags false (some acc.reverse :: some (m0 :: ms) ::
                splitArrF (Re.seq (Re.group 1 (litAlts alts)) Re.eps) 1 fuel []
                  ((c :: rest).drop (m0 :: ms).length))
            = Fragment.plain (String.mk acc.reverse) :: Fragment.strongText (String.mk (m0 :: ms)) ::
                arrFrags false
                  (splitArrF (Re.seq (Re.group 1 (litAlts alts)) Re.eps) 1 fuel []
                    ((c :: rest).drop (m0 :: ms).length))
            from rfl]
          rw [ih [] ((c :: rest).drop (m0 :: ms).length)]

/-- For keyword lists free of regex syntax characters the full regex
pipeline — parsing the interpolated pattern, matching with captures and
splitting — is exactly the literal-alternation evaluation. -/
theorem formattedError_literal (keywords : List String) (message : String)
    (h : keywords.all regexLiteralStr = true) :
    formattedError keywords message = some (litFragments keywords message) := by
  unfold formattedError
  rw [parsePattern_lit keywords h, litAlts_alternatives]
  show some (arrFrags false
      (splitArrF (Re.seq (Re.group 1 (litAlts (alternatives keywords))) Re.eps)
        (2 - 1) (message.data.length + 1) [] message.data)) = _
  rw [show (2 - 1 : Nat) = 1 from rfl]
  rw [arrFrags_splitArr (alternatives keywords) (alternatives_ne keywords)
    (message.data.length + 1) [] message.data]
  rfl

/-- C2: the claim quantifies over every non-empty keyword list, but the
keywords are interpolated into the regex source unescaped: for the keyword
`"t.meout"` the compiled pattern `/(t.meout)/gi` matches `"tXmeout"`, so the
component emphasizes text that is not a case-insensitive occurrence of any
keyword. -/
theorem c2_counterexample :
    (["t.meout"] : List String) ≠ []
    ∧ formattedError ["t.meout"] "tXmeout"
        = some [Fragment.plain "", Fragment.strongText "tXmeout", Fragment.plain ""]
    ∧ ([Fragment.plain "", Fragment.strongText "tXmeout",
        Fragment.plain ""]).all (matchedOkB ["t.meout"]) = false :=
  ⟨by decide, by decide, by decide⟩

/-- C2 (amended): for every non-empty keyword list whose keywords are free
of regex syntax characters (so they read as literal alternatives — ASCII
and none of `^$\.*+?()[]{}|`), `FormattedError` wraps in the emphasis
element only case-insensitive occurrences of the keywords, every other
fragment being plain text; and on keywords `["timeout"]` with message
`"Request timeout occurred"` it renders exactly plain `"Request "`,
emphasized `"timeout"`, plain `" occurred"`. -/
theorem c2_amended :
    (∀ (keywords : List String) (message : String), keywords ≠ [] →
      keywords.all regexLiteralStr = true →
      (formattedError keywords message).map
        (fun frags => frags.all (matchedOkB keywords)) = some true)
    ∧ formattedError ["timeout"] "Request timeout occurred"
      = some [Fragment.plain "Request ", Fragment.strongText "timeout",
          Fragment.plain " occurred"] := by
  constructor
  · intro keywords message hk hlit
    rw [formattedError_literal keywords message hlit, Option.map_some',
      litFragments_matched_ok keywords message hk]
  · decide

/-- C2 witness: the general half of `c2_amended` at the keyword list
`["timeout"]` and message `"Request timeout occurred"`, both hypotheses
discharged. -/
theorem c2_amended_witness :
    (formattedError ["timeout"] "Request timeout occurred").map
      (fun frags => frags.all (matchedOkB ["timeout"])) = some true :=
  c2_amended.1 ["timeout"] "Request timeout occurred" (by decide) (by decide)

/-- C9: the claim quantifies over every keyword list, but a keyword
containing parentheses adds a second capture group: for `["a(b)"]` the
pattern is `/(a(b))/gi` and `"xaby".split` interleaves both captures, so
`react-string-replace` renders `"x"`, emphasized `"ab"`, plain `"b"`,
emphasized `"y"` — concatenating to `"xabby"`, which duplicates the `b`
and emphasizes text that is no match at all. -/
theorem c9_counterexample :
    formattedError ["a(b)"] "xaby"
      = some [Fragment.plain "x", Fragment.strongText "ab", Fragment.plain "b",
          Fragment.strongText "y"]
    ∧ fragmentsText [Fragment.plain "x", Fragment.strongText "ab",
        Fragment.plain "b", Fragment.strongText "y"] = "xabby"
    ∧ ("xabby" : String) ≠ "xaby" :=
  ⟨by decide, by decide, by decide⟩

/-- C9 (amended): for every keyword list whose keywords are free of regex
syntax characters — including the empty list, whose pattern `()` matches
the empty string at every position — the rendered fragments (emphasized
matches plus plain pieces, in order) concatenate back to exactly the
original message. -/
theorem c9_amended (keywords : List String) (message : String)
    (h : keywords.all regexLiteralStr = true) :
    (formattedError keywords message).map fragmentsText = some message := by
  rw [formattedError_literal keywords message h, Option.map_some',
    litFragments_text keywords message]

/-- C9 witness: the amended statement at the empty keyword list (pattern
`()`), the literalness hypothesis discharged. -/
theorem c9_amended_witness :
    (([] : List String)).all regexLiteralStr = true
    ∧ (formattedError ([] : List String) "abc").map fragmentsText = some "abc" :=
  ⟨by decide, c9_amended [] "abc" (by decide)⟩

/-! ### The data model and the error-derivation expressions

`Result.js` lines 71–75:

```js
const errorKw = (error && error.response?.data?.keywords) || [];
const errorMsg =
    (error && error.response?.data?.output) ||
    (error && error.message) ||
    config.messages.general;
```

and line 128: `status={error.response?.data?.alert || "error"}`.

Absent values of the optional chains are `Option.none`; JavaScript `||`
falls through on falsy values, and of the values these chains produce the
falsy ones are `undefined` (`none`) and the empty string — an array (even
`[]`) and a non-empty string are truthy. -/

/-- `{output: string}` — the success response body. -/
structure RespData where
  output : String
deriving DecidableEq

/-- `{output, keywords, alert}` — the structured error response body; each
field may be absent. -/
structure ErrData where
  output : Option String
  keywords : Option (List String)
  alert : Option String
deriving DecidableEq

/-- `error.response` — carries the optional structured body. -/
structure ErrResponse where
  data : Option ErrData
deriving DecidableEq

/-- The error value of the hook: an optional response plus the
`Error.message` string. -/
structure AxiosError where
  response : Option ErrResponse
  message : String
deriving DecidableEq

/-- `error.response?.data?.output`. -/
def structuredOutput (e : AxiosError) : Option String :=
  (e.response.bind ErrResponse.data).bind ErrData.output

/-- `error.response?.data?.keywords`. -/
def structuredKeywords (e : AxiosError) : Option (List String) :=
  (e.response.bind ErrResponse.data).bind ErrData.keywords

/-- `error.response?.data?.alert`. -/
def structuredAlert (e : AxiosError) : Option String :=
  (e.response.bind ErrResponse.data).bind ErrData.alert

/-- JavaScript truthiness of an optional string: `undefined` and `""` are
falsy. -/
def truthyStr : Option String → Option String
  | none => none
  | some s => if s = "" then none else some s

/-- `(error && error.response?.data?.keywords) || []` for a present error —
an array is truthy, so a present (even empty) keyword list is kept. -/
def errorKw (e : AxiosError) : List String :=
  (structuredKeywords e).getD []

/-- `(error && error.response?.data?.output) || (error && error.message) ||
config.messages.general` for a present error. -/
def errorMsg (general : String) (e : AxiosError) : String :=
  match truthyStr (structuredOutput e) with
  | some o => o
  | none =>
    match truthyStr (some e.message) with
    | some m => m
    | none => general

/-- `error.response?.data?.alert || "error"` — the `status` prop of the
`Alert`. -/
def alertStatus (e : AxiosError) : String :=
  match truthyStr (structuredAlert e) with
  | some a => a
  | none => "error"

/-! ### The rendered tree

`Result.js` lines 44–134.  `render` transcribes the props the returned JSX
hands to each sub-element for a given hook state `{ data, loading, error }`:

* `<AccordionItem isDisabled={loading} ...>`;
* `<ResultHeader title={device.display_name} loading={loading} error={error} />`;
* `<CopyButton copyValue={cleanOutput} variant="ghost" />` and
  `<RequeryButton requery={refetch} variant="ghost" />`, rendered
  unconditionally — neither receives a disabled prop or any
  loading-dependent prop;
* the success `<Box as="pre">{cleanOutput}</Box>`, rendered iff `data` is
  truthy (`{data && ...}`);
* the error `<Alert status={...}><FormattedError .../></Alert>`, rendered
  iff `error` is truthy (`{error && ...}`). -/

/-- The hook state destructured from `useAxios`:
`const [{ data, loading, error }, refetch] = useAxios(...)`. -/
structure FetchState where
  data : Option RespData
  loading : Bool
  error : Option AxiosError
deriving DecidableEq

/-- The props of the rendered error `Alert` and its `FormattedError`
child. -/
structure AlertView where
  status : String
  keywords : List String
  message : String
deriving DecidableEq

/-- The component props the claims mention (`device.display_name`, the
query parameters and the timeout). -/
structure Props where
  deviceName : String
  timeout : Nat
  queryLocation : String
  queryType : String
  queryVrf : String
  queryTarget : String
deriving DecidableEq

/-- The props handed to each sub-element of the JSX tree. -/
structure Rendered where
  itemIsDisabled : Bool
  headerShown : Bool
  headerTitle : String
  headerLoading : Bool
  headerError : Option AxiosError
  copyButtonShown : Bool
  copyValue : Option String
  copyDisabledProp : Option Bool
  requeryButtonShown : Bool
  requeryDisabledProp : Option Bool
  successBlock : Option String
  errorAlert : Option AlertView
  errorFragments : Option (Option (List Fragment))
deriving DecidableEq

/-- `const cleanOutput = data && data.output...` — `undefined` (`none`)
when there is no data. -/
def cleanOutputOf (st : FetchState) : Option String :=
  st.data.map fun d => cleanOutput d.output

/-- The returned JSX tree, as the props of its sub-elements.  `general` is
`config.messages.general`. -/
def render (general : String) (p : Props) (st : FetchState) : Rendered where
  itemIsDisabled := st.loading
  headerShown := true
  headerTitle := p.deviceName
  headerLoading := st.loading
  headerError := st.error
  copyButtonShown := true
  copyValue := cleanOutputOf st
  copyDisabledProp := none
  requeryButtonShown := true
  requeryDisabledProp := none
  successBlock := cleanOutputOf st
  errorAlert := st.error.map fun e => ⟨alertStatus e, errorKw e, errorMsg general e⟩
  errorFragments := st.error.map fun e => formattedError (errorKw e) (errorMsg general e)

/-! ### The request hook

`Result.js` lines 53–63:

```js
const [{ data, loading, error }, refetch] = useAxios({
    url: "/api/query",
    method: "post",
    data: { query_location, query_type, query_vrf, query_target },
    timeout: timeout
});
```
-/

/-- The axios request configuration: endpoint, method, the four body
fields and the timeout. -/
structure RequestConfig where
  url : String
  method : String
  query_location : String
  query_type : String
  query_vrf : String
  query_target : String
  timeout : Nat
deriving DecidableEq

/-- The configuration the component passes to `useAxios`, built from its
props (lines 53–62). -/
def requestConfig (p : Props) : RequestConfig where
  url := "/api/query"
  method := "post"
  query_location := p.queryLocation
  query_type := p.queryType
  query_vrf := p.queryVrf
  query_target := p.queryTarget
  timeout := p.timeout

/-- Modelled from the spec: the `useAxios` hook keeps the configuration it
was called with and the requests it has issued ("perform one POST request
per mount/retry"). -/
structure HookState where
  config : RequestConfig
  requests : List RequestConfig

/-- Modelled from the spec: on mount the hook issues exactly one request
with the configuration built from the component's props. -/
def mountHook (p : Props) : HookState where
  config := requestConfig p
  requests := [requestConfig p]

/-- Modelled from the spec: "invoking the retry action re-issues the same
request" — `refetch` (which `RequeryButton`, a repository component not
present under `src/`, invokes as its `requery` prop) immediately appends
one request with the stored configuration, with no debouncing or
backoff. -/
def refetch (h : HookState) : HookState where
  config := h.config
  requests := h.requests ++ [h.config]

/-- Modelled from the spec: "on timeout the hook surfaces an error through
the same error-rendering path as any other failure" — axios reports a
timeout as an error with no response and the message
`timeout of <t>ms exceeded`. -/
def timeoutError (t : Nat) : AxiosError where
  response := none
  message := "timeout of " ++ toString t ++ "ms exceeded"

/-! ### Sample values used by the concrete theorems -/

/-- Sample component props. -/
def sampleProps : Props :=
  ⟨"router1", 30000, "den1", "bgp_route", "default", "192.0.2.1"⟩

/-- A structured error response: output text, keywords and a `warning`
alert flag. -/
def sampleError : AxiosError :=
  ⟨some ⟨some ⟨some "Request timed out.", some ["timed out"], some "warning"⟩⟩,
   "Request failed with status code 504"⟩

/-- A network-level failure: no response at all, only the error message. -/
def netError : AxiosError := ⟨none, "Network Error"⟩

/-- A structured error response whose `alert` field is present but the
empty string. -/
def emptyAlertError : AxiosError :=
  ⟨some ⟨some ⟨some "backend failure", none, some ""⟩⟩,
   "Request failed with status code 500"⟩

/-- A retry in flight: the previous data is still present while the hook
is loading again. -/
def loadingState : FetchState := ⟨some ⟨"done"⟩, true, none⟩

/-- Stale data together with a failed retry: both `data` and `error` are
present. -/
def mixedState : FetchState := ⟨some ⟨"old output"⟩, false, some sampleError⟩

/-- The initial loading state: no data, no error. -/
def loadingOnly : FetchState := ⟨none, true, none⟩

/-- A settled success whose output contains a literal backslash-n. -/
def copyState : FetchState := ⟨some ⟨"x\\ny"⟩, false, none⟩

/-! ### C3 — the message shown without a structured payload -/

/-- C3: the claim says every error without a structured payload shows the
generic configured message; but a network-level error carrying the message
`"Network Error"` shows that message, not the configured one — the code
falls back to `error.message` before `config.messages.general`. -/
theorem c3_counterexample :
    structuredOutput netError = none
    ∧ errorMsg "Something went wrong." netError = "Network Error"
    ∧ errorMsg "Something went wrong." netError ≠ "Something went wrong." :=
  ⟨rfl, rfl, by decide⟩

/-- C3 (amended): when the structured payload is absent the displayed
message is the error's own message string when it is non-empty, and the
generic configured message only when that string is empty. -/
theorem c3_amended (general : String) (e : AxiosError)
    (h : structuredOutput e = none) :
    errorMsg general e = if e.message = "" then general else e.message := by
  by_cases hm : e.message = ""
  · simp [errorMsg, h, truthyStr, hm]
  · simp [errorMsg, h, truthyStr, hm]

/-- C3 witness: the amended statement at the concrete network-level error,
the no-structured-payload hypothesis discharged. -/
theorem c3_witness :
    errorMsg "Something went wrong." netError
      = if netError.message = "" then "Something went wrong." else netError.message :=
  c3_amended "Something went wrong." netError rfl

/-! ### C4 — the three visual states -/

/-- C4: the claim says the success block and the error alert are never
rendered simultaneously; but for the hook-state combination holding both
stale data and a failed retry's error, both are rendered. -/
theorem c4_counterexample :
    (render "An error occurred." sampleProps mixedState).successBlock.isSome = true
    ∧ (render "An error occurred." sampleProps mixedState).errorAlert.isSome = true :=
  ⟨rfl, rfl⟩

/-- C4 (amended): the success block is rendered exactly when `data` is
present and the error alert exactly when `error` is present — so they are
mutually exclusive only for states in which `data` and `error` are not both
present — while the header and the copy/retry buttons are rendered in every
state. -/
theorem c4_amended (general : String) (p : Props) (st : FetchState)
    (h : st.data = none ∨ st.error = none) :
    ¬((render general p st).successBlock.isSome = true
        ∧ (render general p st).errorAlert.isSome = true)
    ∧ (render general p st).successBlock.isSome = st.data.isSome
    ∧ (render general p st).errorAlert.isSome = st.error.isSome
    ∧ (render general p st).headerShown = true
    ∧ (render general p st).copyButtonShown = true
    ∧ (render general p st).requeryButtonShown = true := by
  refine ⟨?_, ?_, ?_, rfl, rfl, rfl⟩
  · rintro ⟨hs, he⟩
    rcases h with h | h
    · simp [render, cleanOutputOf, h] at hs
    · simp [render, h] at he
  · cases hd : st.data <;> simp [render, cleanOutputOf, hd]
  · cases he : st.error <;> simp [render, he]

/-- C4 witness: the amended statement at the initial loading state, the
hypothesis (data and error not both present) discharged. -/
theorem c4_witness :
    ¬((render "g" sampleProps loadingOnly).successBlock.isSome = true
        ∧ (render "g" sampleProps loadingOnly).errorAlert.isSome = true)
    ∧ (render "g" sampleProps loadingOnly).successBlock.isSome = loadingOnly.data.isSome
    ∧ (render "g" sampleProps loadingOnly).errorAlert.isSome = loadingOnly.error.isSome
    ∧ (render "g" sampleProps loadingOnly).headerShown = true
    ∧ (render "g" sampleProps loadingOnly).copyButtonShown = true
    ∧ (render "g" sampleProps loadingOnly).requeryButtonShown = true :=
  c4_amended "g" sampleProps loadingOnly (Or.inl rfl)

/-! ### C5 — retry re-issues the identical request -/

/-- C5: invoking the retry action appends exactly one new request carrying
the stored configuration — `/api/query`, `post`, the four body parameters
from the props and the timeout — identical to the mount request, with no
debouncing or backoff. -/
theorem c5_retry_same_request (p : Props) (h : HookState) :
    (refetch (mountHook p)).requests = [requestConfig p, requestConfig p]
    ∧ requestConfig p
      = ⟨"/api/query", "post", p.queryLocation, p.queryType, p.queryVrf,
         p.queryTarget, p.timeout⟩
    ∧ (refetch h).requests = h.requests ++ [h.config]
    ∧ (refetch h).requests.length = h.requests.length + 1 := by
  refine ⟨rfl, rfl, rfl, ?_⟩
  simp [refetch]

/-! ### C6 — what loading disables -/

/-- C6: the claim says the retry and copy affordances are disabled while
loading; but in a loading state the component passes no disabled prop to
either button — only the `AccordionItem` gets `isDisabled={loading}`. -/
theorem c6_counterexample :
    loadingState.loading = true
    ∧ (render "g" sampleProps loadingState).copyDisabledProp ≠ some true
    ∧ (render "g" sampleProps loadingState).requeryDisabledProp ≠ some true
    ∧ (render "g" sampleProps loadingState).itemIsDisabled = true :=
  ⟨rfl, by decide, by decide, rfl⟩

/-- C6 (amended): `loading` disables only the accordion item
(`isDisabled={loading}`); the copy and retry buttons receive no disabled
prop and no loading-dependent props at all, so the component never disables
them during loading. -/
theorem c6_amended (general : String) (p : Props) (st : FetchState) :
    (render general p st).itemIsDisabled = st.loading
    ∧ (render general p st).copyDisabledProp = none
    ∧ (render general p st).requeryDisabledProp = none
    ∧ (render general p ⟨st.data, true, st.error⟩).copyValue
        = (render general p ⟨st.data, false, st.error⟩).copyValue
    ∧ (render general p ⟨st.data, true, st.error⟩).headerError
        = (render general p ⟨st.data, false, st.error⟩).headerError :=
  ⟨rfl, rfl, rfl, rfl, rfl⟩

/-! ### C7 — the alert severity -/

/-- C7: the claim says the displayed severity is the response's alert flag
whenever it is present; but for a present-but-empty flag the `||` falls
through to the default `"error"`, which differs from the flag. -/
theorem c7_counterexample :
    structuredAlert emptyAlertError = some ""
    ∧ alertStatus emptyAlertError = "error"
    ∧ alertStatus emptyAlertError ≠ "" :=
  ⟨rfl, rfl, by decide⟩

/-- C7 (amended): the displayed severity is the structured alert flag when
it is present and non-empty (truthy), and the rendered `Alert` carries that
status; it defaults to `"error"` when the flag is absent or empty. -/
theorem c7_amended (general : String) (p : Props) (dd : Option RespData)
    (l : Bool) (e : AxiosError) (a : String)
    (h1 : structuredAlert e = some a) (h2 : a ≠ "") :
    alertStatus e = a
    ∧ (render general p ⟨dd, l, some e⟩).errorAlert
        = some ⟨a, errorKw e, errorMsg general e⟩ := by
  have hs : alertStatus e = a := by simp [alertStatus, truthyStr, h1, h2]
  exact ⟨hs, by simp [render, hs]⟩

/-- C7 witness: the amended statement at the sample error whose alert flag
is `"warning"`, both hypotheses discharged. -/
theorem c7_witness :
    alertStatus sampleError = "warning"
    ∧ (render "g" sampleProps ⟨none, false, some sampleError⟩).errorAlert
        = some ⟨"warning", errorKw sampleError, errorMsg "g" sampleError⟩ :=
  c7_amended "g" sampleProps none false sampleError "warning" rfl (by decide)

/-! ### C8 — the mount request and the timeout path -/

theorem timeout_message_ne (t : Nat) : (timeoutError t).message ≠ "" := by
  intro hq
  have h1 : ("timeout of " ++ toString t ++ "ms exceeded").length
      = ("" : String).length := congrArg String.length hq
  rw [String.length_append, String.length_append] at h1
  have h2 : ("timeout of " : String).length = 11 := rfl
  have h3 : ("ms exceeded" : String).length = 11 := rfl
  have h4 : ("" : String).length = 0 := rfl
  omega

/-- C8: on mount the hook issues exactly one request, a POST to
`/api/query` whose body fields are the four query props with the
caller-supplied timeout passed through; and the timeout error (no
response, axios's timeout message) surfaces through the same error-alert
path as any other failure, with the default `"error"` severity, no
keywords, and the timeout message as the displayed text. -/
theorem c8_mount_request (p : Props) (general : String) (q : Props) :
    (mountHook p).requests = [requestConfig p]
    ∧ requestConfig p
      = ⟨"/api/query", "post", p.queryLocation, p.queryType, p.queryVrf,
         p.queryTarget, p.timeout⟩
    ∧ (render general q ⟨none, false, some (timeoutError p.timeout)⟩).errorAlert
        = some ⟨"error", [], (timeoutError p.timeout).message⟩ := by
  refine ⟨rfl, rfl, ?_⟩
  have hne : ("timeout of " ++ toString p.timeout ++ "ms exceeded") ≠ "" :=
    timeout_message_ne p.timeout
  simp [render, alertStatus, errorKw, errorMsg, structuredAlert,
    structuredKeywords, structuredOutput, timeoutError, truthyStr, hne]

/-! ### C10 — what the copy action receives -/

/-- C10: the copy button's `copyValue` is always the normalized output —
`cleanOutput` applied to the response output — when data is present, the
`undefined` placeholder (`none`) when it is not, and never the raw
response output when normalization changes it. -/
theorem c10_copy_value (general : String) (p : Props) (st : FetchState)
    (d : RespData) (h : st.data = some d) :
    (render general p st).copyValue = some (cleanOutput d.output)
    ∧ (render general p ⟨none, st.loading, st.error⟩).copyValue = none
    ∧ (render general p copyState).copyValue = some "x\ny"
    ∧ (render general p copyState).copyValue ≠ some "x\\ny" := by
  refine ⟨?_, rfl, ?_, ?_⟩
  · show cleanOutputOf st = some (cleanOutput d.output)
    rw [cleanOutputOf, h]
    rfl
  · show cleanOutputOf copyState = some "x\ny"
    decide
  · show cleanOutputOf copyState ≠ some "x\\ny"
    decide

/-- C10 witness: the statement at the concrete settled state whose output
is `"x\ny"` with a literal backslash-n, the data-present hypothesis
discharged. -/
theorem c10_witness :
    (render "g" sampleProps copyState).copyValue = some (cleanOutput "x\\ny")
    ∧ (render "g" sampleProps ⟨none, copyState.loading, copyState.error⟩).copyValue = none
    ∧ (render "g" sampleProps copyState).copyValue = some "x\ny"
    ∧ (render "g" sampleProps copyState).copyValue ≠ some "x\\ny" :=
  c10_copy_value "g" sampleProps copyState ⟨"x\\ny"⟩ rfl

end HyperglassResult
